import Mathlib

/-!
Verification of the core components of `a-mistake`, a chat-driven
media-playback controller.  Each definition is a shallow embedding of the
corresponding Rust item; file and line references point into the repository
sources (`src/cache.rs`, `src/irc.rs`, `src/twitch.rs`, `src/mpv.rs`,
`src/control.rs`).
-/

set_option maxRecDepth 100000
set_option maxHeartbeats 1000000

namespace AMistake

/-! ## Playlist model (`src/cache.rs`)

`VideoInfo` and `Request` mirror the structs in `cache.rs` lines 26-41;
`u64` fields become `Nat` (no arithmetic overflowing 2^64 occurs in the
modelled operations).  -/

structure VideoInfo where
  id : String
  duration : Nat
  thumbnail : String
  fulltitle : String
  filename : String
deriving DecidableEq, Repr

structure Request where
  time : Nat
  owner : Nat
  info : VideoInfo
deriving DecidableEq, Repr

/-- `Playlist` from `cache.rs` lines 73-76: a vector of requests plus a
cursor `pos : usize`. -/
structure Playlist where
  list : List Request
  pos : Nat
deriving DecidableEq, Repr

namespace Playlist

/-- `Playlist::new` (`cache.rs` lines 80-82): stores the list and position
verbatim, with no clamping of `pos`. -/
def new (list : List Request) (pos : Nat) : Playlist :=
  ⟨list, pos⟩

/-- `Playlist::len` (`cache.rs` lines 128-130). -/
def len (pl : Playlist) : Nat :=
  pl.list.length

/-- `Playlist::current` (`cache.rs` lines 116-118): `self.list.get(self.pos)`. -/
def current (pl : Playlist) : Option Request :=
  pl.list.get? pl.pos

/-- `Playlist::play` (`cache.rs` lines 84-91): if `id >= len` return `None`
without touching the cursor; otherwise set the cursor to `id` and return the
entry there.  The mutated playlist is returned alongside the result. -/
def play (pl : Playlist) (id : Nat) : Option Request × Playlist :=
  if pl.len ≤ id then (none, pl)
  else
    let pl' : Playlist := { pl with pos := id }
    (pl'.list.get? id, pl')

/-- `Playlist::next` (`cache.rs` lines 93-100): `if pos + 1 == len { pos = 0 }
else { pos += 1 }`, then return `list.get(pos)`. -/
def next (pl : Playlist) : Option Request × Playlist :=
  let p := if pl.pos + 1 = pl.len then 0 else pl.pos + 1
  let pl' : Playlist := { pl with pos := p }
  (pl'.list.get? p, pl')

/-- `Playlist::prev` (`cache.rs` lines 102-109): `if pos == 0 { pos =
len.saturating_sub(1) } else { pos -= 1 }`, then return `list.get(pos)`.
`Nat` subtraction is already saturating. -/
def prev (pl : Playlist) : Option Request × Playlist :=
  let p := if pl.pos = 0 then pl.len - 1 else pl.pos - 1
  let pl' : Playlist := { pl with pos := p }
  (pl'.list.get? p, pl')

/-- `rand::Rng::gen_range(lo, hi)` from the rand 0.6 API used by the source:
returns a value uniformly drawn from `[lo, hi)` and panics when the range is
empty.  The draw is modelled by an external seed `r`, reduced into the range;
the panic is modelled by `none`. -/
def genRange (r lo hi : Nat) : Option Nat :=
  if lo < hi then some (lo + r % (hi - lo)) else none

/-- `Playlist::random` (`cache.rs` lines 111-114):
`self.pos = thread_rng().gen_range(0, self.len()); self.list.get(self.pos)`.
The RNG draw is modelled by the seed `r`; the `gen_range` panic on an empty
playlist is modelled by `none`. -/
def random (pl : Playlist) (r : Nat) : Option (Option Request × Playlist) :=
  match genRange r 0 pl.len with
  | none => none
  | some p =>
    let pl' : Playlist := { pl with pos := p }
    some (pl'.list.get? p, pl')

end Playlist

/-- The sort key comparison of `Cache::make_playlist` (`cache.rs` line 176):
`list.sort_by_key(|r| (r.time, std::cmp::Reverse(r.time)))`.  The derived
lexicographic order on `(u64, Reverse<u64>)` gives
`(t₁, Reverse t₁) ≤ (t₂, Reverse t₂) ↔ t₁ < t₂ ∨ (t₁ = t₂ ∧ t₂ ≤ t₁)`. -/
def keyLe (a b : Request) : Bool :=
  decide (a.time < b.time ∨ (a.time = b.time ∧ b.time ≤ a.time))

/-- `Cache::make_playlist` (`cache.rs` lines 174-178): collect the cached
requests, sort them by the key above (stable sort), and build a playlist at
cursor `pos.unwrap_or(0)`.  The cursor is NOT clamped to the list length.
`entries` stands for `self.map.values().cloned()`. -/
def makePlaylist (entries : List Request) (pos : Option Nat) : Playlist :=
  Playlist.new (entries.mergeSort keyLe) (pos.getD 0)

/-! ## Player IPC model (`src/mpv.rs`)

JSON values are modelled by `JValue`; only the accessors the client uses
(`get`, `as_str`, `as_u64`) are needed.  Numbers appearing in the protocol
are non-negative integers (`request_id`), so `num` carries a `Nat`. -/

inductive JValue where
  | null
  | bool (b : Bool)
  | num (n : Nat)
  | str (s : String)
  | arr (xs : List JValue)
  | obj (fields : List (String × JValue))

namespace JValue

/-- `serde_json::Value::get(key)`: field lookup on an object (first match;
parsed objects have unique keys), `None` on any other value. -/
def get (v : JValue) (key : String) : Option JValue :=
  match v with
  | .obj fields => (fields.find? (fun kv => kv.1 = key)).map (·.2)
  | _ => none

/-- `serde_json::Value::as_str`. -/
def asStr (v : JValue) : Option String :=
  match v with
  | .str s => some s
  | _ => none

/-- `serde_json::Value::as_u64` (numbers in the modelled protocol are
non-negative integers). -/
def asU64 (v : JValue) : Option Nat :=
  match v with
  | .num n => some n
  | _ => none

end JValue

/-- `Reason` (`mpv.rs` lines 177-185). -/
inductive Reason where
  | eof | stop | quit | error | redirect | unknown
deriving DecidableEq, Repr

/-- `Event` (`mpv.rs` lines 127-140). -/
inductive Event where
  | startFile
  | endFile
  | endFileReason (r : Reason)
  | fileLoaded
  | idle
  | shutdown
  | tracksChanged
  | trackSwitched
  | pause
  | unpause
  | metadataUpdate
deriving DecidableEq, Repr

/-- The five-way `reason` string match inside the `"end-file"` arm of
`Event::try_from_value` (`mpv.rs` lines 149-156), factored out: a recognized
reason string yields its `Reason`, anything else yields `none` (the source's
`_ => return Some(Event::EndFile)` path). -/
def recognizedReason (s : String) : Option Reason :=
  match s with
  | "eof" => some .eof
  | "stop" => some .stop
  | "quit" => some .quit
  | "error" => some .error
  | "redirect" => some .redirect
  | _ => none

namespace Event

/-- The event-name dispatch of `Event::try_from_value` (`mpv.rs` lines
145-171), i.e. the `match name.as_str()?` body, written as the equivalent
chain of equality tests on the (pairwise distinct) literal patterns.  Note
the source string `"tracks-changed "` at line 165 carries a trailing space,
reproduced here verbatim. -/
def ofName (val : JValue) (name : String) : Option Event :=
  if name = "start-file" then some .startFile
  else if name = "end-file" then
    match (val.get "reason").bind JValue.asStr with
    | some reason =>
      match recognizedReason reason with
      | some r => some (.endFileReason r)
      | none => some .endFile
    | none => some (.endFileReason .unknown)
  else if name = "file-loaded" then some .fileLoaded
  else if name = "idle" then some .idle
  else if name = "shutdown" then some .shutdown
  else if name = "tracks-changed " then some .tracksChanged
  else if name = "track-switched" then some .trackSwitched
  else if name = "pause" then some .pause
  else if name = "unpause" then some .unpause
  else if name = "metadata-update" then some .metadataUpdate
  else none

/-- `Event::try_from_value` (`mpv.rs` lines 143-175): extract the `event`
field as a string (`None` otherwise) and dispatch on the name. -/
def tryFromValue (val : JValue) : Option Event :=
  match (val.get "event").bind JValue.asStr with
  | none => none
  | some name => ofName val name

end Event

/-- `request_id` extraction (`mpv.rs` lines 89-93):
`val.get("request_id").and_then(|req| req.as_u64()).map(|d| d as u8)`. -/
def reqIdOf (v : JValue) : Option Nat :=
  ((v.get "request_id").bind JValue.asU64).map (· % 256)

/-- Insertion into the `IndexSet<Event>` (`mpv.rs` line 103): a no-op when
the event is already present, otherwise appended in insertion order. -/
def insertEvent (evs : List Event) (e : Event) : List Event :=
  if e ∈ evs then evs else evs ++ [e]

/-- `HashMap::insert` for the response buffer (`mpv.rs` line 100): replaces
any existing entry for the same key. -/
def bufInsert (buf : List (Nat × JValue)) (k : Nat) (v : JValue) :
    List (Nat × JValue) :=
  buf.filter (fun kv => !(kv.1 = k : Bool)) ++ [(k, v)]

/-- `HashMap::remove` for the response buffer (`mpv.rs` line 77): returns
the stored value (if any) together with the buffer without that key. -/
def bufRemove (buf : List (Nat × JValue)) (k : Nat) :
    Option (JValue × List (Nat × JValue)) :=
  match buf.find? (fun kv => kv.1 = k) with
  | some kv => some (kv.2, buf.filter (fun kv2 => !(kv2.1 = k : Bool)))
  | none => none

/-- The mutable state of `mpv::Client` (`mpv.rs` lines 24-30) together with
the remaining inbound stream: `buf` is the response buffer, `events` the
buffered event set, and `stream` the JSON values still to be read (lines
that fail to parse as JSON are skipped by the loop at `mpv.rs` lines 84-87
and are therefore not represented). -/
structure MpvState where
  buf : List (Nat × JValue)
  events : List Event
  stream : List JValue

/-- The two possible successful outcomes of `wait_for_response`: a real
response value, or the sentinel no-data response built at `mpv.rs` lines
105-109 when an event arrives during a generic (`id = None`) read. -/
inductive ReadResult where
  | resp (v : JValue)
  | noData

/-- The read loop of `Client::wait_for_response` (`mpv.rs` lines 81-114),
acting on the three mutable pieces separately: on success it yields the
result together with the updated response buffer, updated event set and the
unread remainder of the stream.  Reaching the end of the stream means the
client blocks forever (at EOF `read_line` keeps yielding empty lines that
fail to parse), modelled as `none`. -/
def readLoopAux (id : Option Nat) (buf : List (Nat × JValue)) (events : List Event) :
    List JValue → Option (ReadResult × List (Nat × JValue) × List Event × List JValue)
  | [] => none
  | v :: rest =>
    match reqIdOf v with
    | some req =>
      if id = some req then some (.resp v, buf, events, rest)
      else readLoopAux id (bufInsert buf req v) events rest
    | none =>
      match Event.tryFromValue v with
      | some e =>
        if id = none then some (.noData, buf, insertEvent events e, rest)
        else readLoopAux id buf (insertEvent events e) rest
      | none => readLoopAux id buf events rest

/-- Repackaging of `readLoopAux` as a transition on `MpvState`. -/
def readLoop (id : Option Nat) (st : MpvState) : Option (ReadResult × MpvState) :=
  (readLoopAux id st.buf st.events st.stream).map
    (fun r => (r.1, ⟨r.2.1, r.2.2.1, r.2.2.2⟩))

/-- `Client::wait_for_response` (`mpv.rs` lines 73-115): a buffered response
for the requested id is consumed immediately; otherwise the read loop
runs. -/
def waitForResponse (id : Option Nat) (st : MpvState) : Option (ReadResult × MpvState) :=
  match id with
  | some i =>
    match bufRemove st.buf i with
    | some (v, buf') => some (.resp v, { st with buf := buf' })
    | none => readLoop (some i) st
  | none => readLoop none st

theorem readLoopAux_stream_length {id : Option Nat} {x : ReadResult}
    {buf' : List (Nat × JValue)} {evs' : List Event} {rest' : List JValue} :
    ∀ {stream : List JValue} {buf : List (Nat × JValue)} {evs : List Event},
    readLoopAux id buf evs stream = some (x, buf', evs', rest') →
    rest'.length < stream.length := by
  intro stream
  induction stream with
  | nil => intro buf evs h; simp [readLoopAux] at h
  | cons v rest ih =>
    intro buf evs h
    rw [readLoopAux] at h
    rcases hreq : reqIdOf v with _ | req
    · simp only [hreq] at h
      rcases hev : Event.tryFromValue v with _ | e
      · simp only [hev] at h
        exact Nat.lt_succ_of_lt (ih h)
      · simp only [hev] at h
        by_cases hid : id = none
        · simp only [if_pos hid] at h
          cases h
          exact Nat.lt_succ_self _
        · simp only [if_neg hid] at h
          exact Nat.lt_succ_of_lt (ih h)
    · simp only [hreq] at h
      by_cases hid : id = some req
      · simp only [if_pos hid] at h
        cases h
        exact Nat.lt_succ_self _
      · simp only [if_neg hid] at h
        exact Nat.lt_succ_of_lt (ih h)

theorem readLoop_stream_length {id : Option Nat} {st : MpvState} {x : ReadResult}
    {st' : MpvState} (h : readLoop id st = some (x, st')) :
    st'.stream.length < st.stream.length := by
  unfold readLoop at h
  rcases haux : readLoopAux id st.buf st.events st.stream with _ | ⟨y, buf', evs', rest'⟩
  · rw [haux] at h; simp at h
  · rw [haux] at h
    simp at h
    rcases h with ⟨h1, h2⟩
    subst h2
    exact readLoopAux_stream_length haux

/-- The `while !events.remove(&ev)` loop of `Client::wait_for_event`
(`mpv.rs` lines 67-69): if the target event is buffered, remove it and stop;
otherwise perform one generic read and retry.  `IndexSet::remove` succeeds
exactly when the set contains an element equal to the target. -/
def waitLoop (ev : Event) (st : MpvState) : Option MpvState :=
  if ev ∈ st.events then some { st with events := st.events.erase ev }
  else
    match hr : waitForResponse none st with
    | none => none
    | some (_, st') => waitLoop ev st'
termination_by st.stream.length
decreasing_by
  exact readLoop_stream_length hr

/-- `Client::wait_for_event` (`mpv.rs` lines 65-71): clear the buffered
events, then loop until the target event is observed and removed. -/
def waitForEvent (ev : Event) (st : MpvState) : Option MpvState :=
  waitLoop ev { st with events := [] }

/-- `Control::wait_for_end` (`control.rs` lines 98-102): wait for the bare
`EndFile` event (the error-type conversion `map_err` is irrelevant here). -/
def waitForEnd (st : MpvState) : Option MpvState :=
  waitForEvent .endFile st

/-! ## Chat protocol parser (`src/irc.rs`)

Lines are modelled as lists of characters; Rust's byte-index string
operations (`find`, slicing) are modelled by character indices, which
denote the same split points since the searched-for characters (`' '`,
`':'`, `'!'`, `'='`, `';'`) are ASCII. -/

/-- A chat-protocol text fragment. -/
abbrev Str := List Char

/-- Rust `char::is_whitespace`, restricted to the ASCII range (U+0009 to
U+000D and U+0020).  The modelled protocol lines contain no non-ASCII
whitespace. -/
def isWs (c : Char) : Bool :=
  c.toNat = 9 || c.toNat = 10 || c.toNat = 11 || c.toNat = 12 || c.toNat = 13 ||
    c.toNat = 32

/-- Worker for `splitWs`: `cur` is the (reversed) token currently being
accumulated. -/
def splitWsAux : Str → Str → List Str
  | cur, [] => if cur = [] then [] else [cur.reverse]
  | cur, c :: rest =>
    if isWs c then
      if cur = [] then splitWsAux [] rest else cur.reverse :: splitWsAux [] rest
    else splitWsAux (c :: cur) rest

/-- Rust `str::split_whitespace`: maximal runs of non-whitespace characters,
with no empty tokens. -/
def splitWs (l : Str) : List Str :=
  splitWsAux [] l

/-- Rust `str::split(sep)`: every piece, including empty ones and a final
empty piece after a trailing separator.  Always returns at least one
piece. -/
def splitAll (sep : Char) : Str → List Str
  | [] => [[]]
  | c :: rest =>
    if c = sep then [] :: splitAll sep rest
    else
      match splitAll sep rest with
      | t :: ts => (c :: t) :: ts
      | [] => [[c]]

/-- Rust `str::split_terminator(sep)`: like `split`, but a final empty piece
(arising from a trailing separator or an empty input) is omitted. -/
def splitTerm (sep : Char) (l : Str) : List Str :=
  let ps := splitAll sep l
  if ps.getLast? = some [] then ps.dropLast else ps

/-- `Tags` (`irc.rs` lines 4-5): the unique-key map is represented as an
association list in which an inserted key replaces any previous entry. -/
abbrev Tags := List (Str × Str)

/-- `HashMap::insert` for tags: replaces any existing entry with the same
key. -/
def tagsInsert (m : Tags) (k v : Str) : Tags :=
  m.filter (fun kv => !(kv.1 = k : Bool)) ++ [(k, v)]

namespace Tags

/-- `Tags::get` (`irc.rs` lines 20-22). -/
def get (m : Tags) (key : Str) : Option Str :=
  (m.find? (fun kv => kv.1 = key)).map (·.2)

/-- `Tags::parse` (`irc.rs` lines 8-18): drop the leading `'@'`, split the
rest on `';'` (terminator style), and for every part containing `'='` insert
the text before the first `'='` as key and the text after it as value; parts
without `'='` are skipped. -/
def parse (input : Str) : Tags :=
  (splitTerm ';' (input.drop 1)).foldl
    (fun m part =>
      match part.findIdx? (· = '=') with
      | some i => tagsInsert m (part.take i) (part.drop (i + 1))
      | none => m)
    []

end Tags

/-- `Badge` (`irc.rs` lines 39-48). -/
inductive Badge where
  | admin | broadcaster | globalMod | moderator | subscriber | staff | turbo
deriving DecidableEq, Repr

/-- `Badge::from_str` (`irc.rs` lines 50-65): ASCII-lowercase the input and
match it against the seven known badge names. -/
def Badge.fromStr (s : Str) : Option Badge :=
  let t := s.map Char.toLower
  if t = "admin".toList then some .admin
  else if t = "broadcaster".toList then some .broadcaster
  else if t = "global_mod".toList then some .globalMod
  else if t = "moderator".toList then some .moderator
  else if t = "subscriber".toList then some .subscriber
  else if t = "staff".toList then some .staff
  else if t = "turbo".toList then some .turbo
  else none

/-- `Tags::badges` (`irc.rs` lines 24-36): `None` when no `badges` tag is
present; otherwise split its value on `','`, keep the part of each piece
before the first `'/'`, and collect the recognized badge names, silently
dropping unrecognized ones. -/
def Tags.badges (m : Tags) : Option (List Badge) :=
  (Tags.get m ("badges".toList)).map (fun v =>
    (splitAll ',' v).filterMap (fun s =>
      match splitAll '/' s with
      | p :: _ => Badge.fromStr p
      | [] => none))

/-- `IrcCommand` (`irc.rs` lines 67-82). -/
inductive IrcCommand where
  | ping (data : Str)
  | privmsg (target : Str) (sender : Str) (data : Str)
  | unknown (cmd : Str) (args : List Str) (data : Str)
deriving DecidableEq, Repr

/-- `IrcMessage` (`irc.rs` lines 84-88). -/
structure IrcMessage where
  tags : Tags
  command : IrcCommand
deriving DecidableEq, Repr

/-- The outcome of `IrcMessage::parse`: the Rust function returns
`Option<IrcMessage>`, but several paths `panic` (`unwrap` on a missing
space after tags, `Vec::remove(0)` on an empty argument vector, `unwrap` on
a missing prefix).  `panics` records those paths. -/
inductive PResult where
  | panics
  | noMsg
  | msg (m : IrcMessage)
deriving DecidableEq, Repr

/-- The inner `parse_prefix` of `IrcMessage::parse` (`irc.rs` lines
105-115): on a line starting with `':'`, the text between the colon and the
first space, truncated at the first `'!'`; `None` when the line does not
start with `':'` or contains no space (the `?` on `input.find(' ')`). -/
def parseSender (input : Str) : Option Str :=
  if input.head? = some ':' then
    match input.findIdx? (· = ' ') with
    | none => none
    | some pos =>
      let s := (input.take pos).drop 1
      match s.findIdx? (· = '!') with
      | some p => some (s.take p)
      | none => some s
  else none

/-- The inner `get_data` of `IrcMessage::parse` (`irc.rs` lines 124-130):
everything after the first `':'` found at index ≥ 1, or empty when there is
none. -/
def getData (s : Str) : Str :=
  match (s.drop 1).findIdx? (· = ':') with
  | some pos => s.drop (pos + 2)
  | none => []

/-- The tag-stripping prelude of `IrcMessage::parse` (`irc.rs` lines
96-103): on a line starting with `'@'`, the segment up to the first space is
parsed as tags and the remainder is returned; without a space the
`input.find(' ').unwrap()` panics (`none` here).  Lines not starting with
`'@'` pass through with empty tags. -/
def stripTags (input : Str) : Option (Str × Tags) :=
  if input.head? = some '@' then
    match input.findIdx? (· = ' ') with
    | none => none
    | some pos => some (input.drop (pos + 1), Tags.parse (input.take pos))
  else some (input, [])

/-- The argument-vector construction of `IrcMessage::parse` (`irc.rs` lines
118-122): whitespace tokens of the line after the tag segment, skipping one
token when a prefix was recognized, up to (excluding) the first token
starting with `':'`. -/
def argsOf (rest : Str) : List Str :=
  ((splitWs rest).drop (if (parseSender rest).isSome then 1 else 0)).takeWhile
    (fun t => !(t.head? = some ':' : Bool))

/-- `IrcMessage::parse` (`irc.rs` lines 91-149).  Panics of the source are
`PResult.panics`: the missing space after a tag segment, `args.remove(0)`
on an empty vector (no verb, or no `PRIVMSG` target — evaluated before the
sender field), and `prefix.unwrap()` for a `PRIVMSG` without prefix. -/
def IrcMessage.parse (input : Str) : PResult :=
  if input = [] then .noMsg
  else
    match stripTags input with
    | none => .panics
    | some (rest, tags) =>
      match argsOf rest with
      | [] => .panics
      | verb :: rargs =>
        if verb = "PRIVMSG".toList then
          match rargs with
          | [] => .panics
          | tgt :: _ =>
            match parseSender rest with
            | none => .panics
            | some snd => .msg ⟨tags, .privmsg tgt snd (getData rest)⟩
        else if verb = "PING".toList then .msg ⟨tags, .ping (getData rest)⟩
        else .msg ⟨tags, .unknown verb rargs (getData rest)⟩

/-! ## Command grammar (`src/twitch.rs` lines 28-83) -/

/-- `Target` (`twitch.rs` lines 28-31). -/
inductive Target where
  | channel (c : Str)
deriving DecidableEq, Repr

/-- `CommandKind` (`twitch.rs` lines 39-47). -/
inductive CommandKind where
  | request (id : Str) (req : Str)
  | play (pos : Str)
  | info
  | list
  | skip
  | random
deriving DecidableEq, Repr

/-- `Command` (`twitch.rs` lines 33-37). -/
structure BotCommand where
  kind : CommandKind
  target : Target
deriving DecidableEq, Repr

/-- `Command::parse` (`twitch.rs` lines 50-83).  The tuple pattern at lines
53-55 requires the message to be a `Privmsg` AND `tags.badges()` to be
`Some` (a `badges` tag present) AND `tags.get("user-id")` to be `Some`;
otherwise no command is recognized.  `check` gates `!play`, `!skip` and
`!random` on a Broadcaster or Moderator badge; a failed guard falls through
to the catch-all `None`. -/
def BotCommand.parse (msg : IrcMessage) : Option BotCommand :=
  match msg.command with
  | .privmsg target _sender data =>
    match Tags.badges msg.tags, Tags.get msg.tags ("user-id".toList) with
    | some badges, some id =>
      let check := badges.contains Badge.broadcaster || badges.contains Badge.moderator
      match splitWs data with
      | [] => none
      | first :: rest =>
        if first = "!songinfo".toList ∨ first = "!song".toList ∨
            first = "!current".toList then
          some ⟨.info, .channel target⟩
        else if first = "!songlist".toList ∨ first = "!list".toList then
          some ⟨.list, .channel target⟩
        else if first = "!songrequest".toList ∨ first = "!sr".toList then
          match rest with
          | [] => none
          | q :: _ => some ⟨.request id q, .channel target⟩
        else if first = "!play".toList ∧ check = true then
          match rest with
          | [] => none
          | p :: _ => some ⟨.play p, .channel target⟩
        else if first = "!skip".toList ∧ check = true then
          some ⟨.skip, .channel target⟩
        else if first = "!random".toList ∧ check = true then
          some ⟨.random, .channel target⟩
        else none
    | _, _ => none
  | _ => none

/-! ## Outbound line framing (`src/twitch.rs` lines 201-215)

The `split` function works on the byte representation of the line
(`str::len`, `as_bytes().chunks(..)`, `str::from_utf8`), so it is modelled
over lists of bytes. -/

/-- A byte string: a list of byte values (each < 256 in every modelled
input). -/
abbrev Bytes := List Nat

/-- The bytes of an ASCII whitespace character (U+0009-U+000D, U+0020).
Rust `str::trim` strips Unicode `White_Space` characters; the non-ASCII
ones are multi-byte in UTF-8 and outside the modelled inputs. -/
def isWsByte (b : Nat) : Bool :=
  b = 9 || b = 10 || b = 11 || b = 12 || b = 13 || b = 32

/-- Rust `str::trim` at the byte level (ASCII whitespace). -/
def trimBytes (s : Bytes) : Bytes :=
  ((s.dropWhile isWsByte).reverse.dropWhile isWsByte).reverse

/-- Whether a byte starts a UTF-8 continuation (`0x80..=0xBF`). -/
def utf8Cont (b : Nat) : Bool :=
  decide (0x80 ≤ b ∧ b ≤ 0xBF)

/-- Validity of a byte string as UTF-8, exactly the condition under which
`str::from_utf8` succeeds. -/
def utf8Valid : Bytes → Bool
  | [] => true
  | b :: rest =>
    if b < 0x80 then utf8Valid rest
    else if 0xC2 ≤ b ∧ b ≤ 0xDF then
      match rest with
      | c :: r => utf8Cont c && utf8Valid r
      | [] => false
    else if b = 0xE0 then
      match rest with
      | c1 :: c2 :: r => decide (0xA0 ≤ c1 ∧ c1 ≤ 0xBF) && utf8Cont c2 && utf8Valid r
      | _ => false
    else if (0xE1 ≤ b ∧ b ≤ 0xEC) ∨ (0xEE ≤ b ∧ b ≤ 0xEF) then
      match rest with
      | c1 :: c2 :: r => utf8Cont c1 && utf8Cont c2 && utf8Valid r
      | _ => false
    else if b = 0xED then
      match rest with
      | c1 :: c2 :: r => decide (0x80 ≤ c1 ∧ c1 ≤ 0x9F) && utf8Cont c2 && utf8Valid r
      | _ => false
    else if b = 0xF0 then
      match rest with
      | c1 :: c2 :: c3 :: r =>
        decide (0x90 ≤ c1 ∧ c1 ≤ 0xBF) && utf8Cont c2 && utf8Cont c3 && utf8Valid r
      | _ => false
    else if 0xF1 ≤ b ∧ b ≤ 0xF3 then
      match rest with
      | c1 :: c2 :: c3 :: r => utf8Cont c1 && utf8Cont c2 && utf8Cont c3 && utf8Valid r
      | _ => false
    else if b = 0xF4 then
      match rest with
      | c1 :: c2 :: c3 :: r =>
        decide (0x80 ≤ c1 ∧ c1 ≤ 0x8F) && utf8Cont c2 && utf8Cont c3 && utf8Valid r
      | _ => false
    else false

/-- Worker for `chunksB`, structurally recursive on a fuel counter.  For
`k > 0` the fuel `xs.length` always suffices because every step consumes at
least one element. -/
def chunksBAux (k : Nat) : Nat → Bytes → List Bytes
  | 0, _ => []
  | _ + 1, [] => []
  | fuel + 1, x :: xs => ((x :: xs).take k) :: chunksBAux k fuel ((x :: xs).drop k)

/-- Rust `slice::chunks(k)` for `k > 0`: pieces of `k` consecutive elements,
the last one possibly shorter.  (`chunks(0)` panics in Rust; the caller
`splitLine` only reaches this with `k > 0`.) -/
def chunksB (k : Nat) (xs : Bytes) : List Bytes :=
  chunksBAux k xs.length xs

/-- The byte value of `':'`. -/
def colonByte : Nat := 58

/-- `split` (`twitch.rs` lines 201-215).  A line longer than 510 bytes that
contains `':'` is split at the first `':'`; both sides are trimmed; the tail
is chunked into pieces of `510 - head.len()` bytes; each chunk that is valid
UTF-8 is re-framed as `head ++ " :" ++ chunk ++ "\r\n"` (invalid chunks are
silently dropped by the `filter_map(|s| s.ok())` — the source's own
`XXX this drops bytes on split boundaries`); any other line is emitted
unmodified with `"\r\n"` appended.  When the trimmed head is 510 bytes or
longer, `510 - head.len()` is zero or overflows in `usize` and
`chunks` panics (checked semantics), modelled as `none`. -/
def splitLine (data : Bytes) : Option (List Bytes) :=
  if 510 < data.length ∧ colonByte ∈ data then
    let head := trimBytes (data.takeWhile (fun b => !(b = colonByte : Bool)))
    let tail := trimBytes ((data.dropWhile (fun b => !(b = colonByte : Bool))).drop 1)
    if 510 ≤ head.length then none
    else
      some (((chunksB (510 - head.length) tail).filter utf8Valid).map
        (fun c => head ++ [32, colonByte] ++ c ++ [13, 10]))
  else some [data ++ [13, 10]]

/-! ## Example values used by witnesses -/

/-- A concrete playlist entry. -/
def exReq : Request :=
  ⟨0, 0, ⟨"", 0, "", "", ""⟩⟩

/-- A later concrete playlist entry (request time 5). -/
def exReq5 : Request :=
  ⟨5, 1, ⟨"x", 0, "", "", ""⟩⟩

/-! ## Supporting lemmas -/

theorem keyLe_iff (a b : Request) : keyLe a b = true ↔ a.time ≤ b.time := by
  unfold keyLe
  rw [decide_eq_true_iff]
  omega

theorem mergeSort_keyLe_sorted (l : List Request) :
    List.Pairwise (fun a b : Request => a.time ≤ b.time) (l.mergeSort keyLe) := by
  have h := @List.sorted_mergeSort Request keyLe
    (fun a b c hab hbc => by
      rw [keyLe_iff] at hab hbc ⊢; omega)
    (fun a b => by
      rcases Nat.le_total a.time b.time with h | h
      · simp [(keyLe_iff a b).mpr h]
      · simp [(keyLe_iff b a).mpr h])
    l
  exact h.imp (fun hab => (keyLe_iff _ _).mp hab)

theorem chunksBAux_join (k : Nat) (hk : 0 < k) :
    ∀ (fuel : Nat) (xs : Bytes), xs.length ≤ fuel →
      (chunksBAux k fuel xs).flatten = xs := by
  intro fuel
  induction fuel with
  | zero =>
    intro xs hxs
    rw [Nat.le_zero, List.length_eq_zero] at hxs
    subst hxs
    rfl
  | succ fuel ih =>
    intro xs hxs
    match xs with
    | [] => rfl
    | x :: xs' =>
      rw [chunksBAux, List.flatten_cons, ih _ (by simp at hxs ⊢; omega),
        List.take_append_drop]

theorem chunksB_join (k : Nat) (hk : 0 < k) (xs : Bytes) :
    (chunksB k xs).flatten = xs :=
  chunksBAux_join k hk xs.length xs (Nat.le_refl _)

theorem chunksBAux_mem_length (k : Nat) :
    ∀ (fuel : Nat) (xs c : Bytes), c ∈ chunksBAux k fuel xs → c.length ≤ k := by
  intro fuel
  induction fuel with
  | zero => intro xs c hc; simp [chunksBAux] at hc
  | succ fuel ih =>
    intro xs c hc
    cases xs with
    | nil => simp [chunksBAux] at hc
    | cons x xs' =>
      rw [chunksBAux, List.mem_cons] at hc
      rcases hc with hc | hc
      · subst hc; simpa using Nat.min_le_left _ _
      · exact ih _ _ hc

theorem get?_isSome_of_lt {α : Type} (l : List α) (p : Nat) (h : p < l.length) :
    (l.get? p).isSome = true := by
  rw [List.get?_eq_getElem?, List.getElem?_eq_getElem h]
  rfl

theorem chunksB_mem_length (k : Nat) (xs c : Bytes) (hc : c ∈ chunksB k xs) :
    c.length ≤ k :=
  chunksBAux_mem_length k xs.length xs c hc

/-! ## Claims -/

/-- C8: on a nonempty playlist, `next()` with the cursor on the last entry
wraps to 0 and returns the first entry; `prev()` with the cursor at 0 wraps
to the last index and returns the last entry; `play(i)` with `i ≥ len`
leaves the playlist unchanged and returns nothing. -/
theorem C8_wraparound (pl : Playlist) (i : Nat)
    (hne : pl.list ≠ []) (hi : pl.len ≤ i) :
    (pl.pos = pl.len - 1 →
      Playlist.next pl = (pl.list.get? 0, ⟨pl.list, 0⟩) ∧
        (pl.list.get? 0).isSome = true) ∧
    (pl.pos = 0 →
      Playlist.prev pl = (pl.list.get? (pl.len - 1), ⟨pl.list, pl.len - 1⟩) ∧
        (pl.list.get? (pl.len - 1)).isSome = true) ∧
    Playlist.play pl i = (none, pl) := by
  have hlen : 0 < pl.list.length := List.length_pos.mpr hne
  refine ⟨?_, ?_, ?_⟩
  · intro hpos
    have hwrap : pl.pos + 1 = pl.len := by
      unfold Playlist.len at hpos ⊢; omega
    constructor
    · simp [Playlist.next, hwrap]
    · exact get?_isSome_of_lt _ _ hlen
  · intro hpos
    constructor
    · simp [Playlist.prev, hpos]
    · exact get?_isSome_of_lt _ _ (by unfold Playlist.len; omega)
  · simp [Playlist.play, hi]

/-- C8 witness: a 5-entry playlist wraps from 4 to 0 on `next`, from 0 to 4
on `prev`, and `play 10` is a no-op returning nothing. -/
theorem C8_wraparound_witness :
    Playlist.next ⟨[exReq, exReq, exReq, exReq, exReq5], 4⟩ =
      (some exReq, ⟨[exReq, exReq, exReq, exReq, exReq5], 0⟩) ∧
    Playlist.prev ⟨[exReq, exReq, exReq, exReq, exReq5], 0⟩ =
      (some exReq5, ⟨[exReq, exReq, exReq, exReq, exReq5], 4⟩) ∧
    Playlist.play ⟨[exReq, exReq, exReq, exReq, exReq5], 0⟩ 10 =
      (none, ⟨[exReq, exReq, exReq, exReq, exReq5], 0⟩) := by
  have h := C8_wraparound ⟨[exReq, exReq, exReq, exReq, exReq5], 0⟩ 10
    (by decide) (by decide)
  have h4 := C8_wraparound ⟨[exReq, exReq, exReq, exReq, exReq5], 4⟩ 10
    (by decide) (by decide)
  refine ⟨?_, ?_, h.2.2⟩
  · have := (h4.1 (by decide)).1
    simpa using this
  · have := (h.2.1 (by decide)).1
    simpa using this

/-- C5 counterexample: `makePlaylist` does not clamp the starting cursor:
built from a one-entry list and starting cursor 3, the playlist is nonempty
yet its cursor 3 is not a valid index, contradicting the claim that a
playlist constructed from any starting cursor and any nonempty entry list
has a valid cursor. -/
theorem C5_counterexample :
    (makePlaylist [exReq] (some 3)).list ≠ [] ∧
    (makePlaylist [exReq] (some 3)).pos = 3 ∧
    ¬ (makePlaylist [exReq] (some 3)).pos < (makePlaylist [exReq] (some 3)).list.length := by
  have hlen : (makePlaylist [exReq] (some 3)).list.length = 1 :=
    (List.mergeSort_perm [exReq] keyLe).length_eq
  refine ⟨?_, rfl, ?_⟩
  · intro h
    rw [h] at hlen
    simp at hlen
  · intro h
    rw [hlen] at h
    have : (makePlaylist [exReq] (some 3)).pos = 3 := rfl
    omega

/-- C5 (amended): `makePlaylist` sorts the entries ascending by request time
(yielding a permutation of the input), but passes the starting cursor
through unclamped (`unwrap_or(0)`); the constructed cursor is valid whenever
the given cursor is absent or in range and the entry list is nonempty.  On a
nonempty playlist whose cursor is valid, `play`, `next`, `prev` and
`random` each leave the cursor valid. -/
theorem C5_sorted_and_preserved (entries : List Request) (pos : Option Nat)
    (pl : Playlist) (i r : Nat)
    (hne : pl.list ≠ []) (hv : pl.pos < pl.list.length) :
    List.Pairwise (fun a b : Request => a.time ≤ b.time) (makePlaylist entries pos).list ∧
    (makePlaylist entries pos).list.Perm entries ∧
    ((pos = none ∨ ∃ p, pos = some p ∧ p < entries.length) → entries ≠ [] →
      (makePlaylist entries pos).pos < (makePlaylist entries pos).list.length) ∧
    (Playlist.play pl i).2.pos < (Playlist.play pl i).2.list.length ∧
    (Playlist.next pl).2.pos < (Playlist.next pl).2.list.length ∧
    (Playlist.prev pl).2.pos < (Playlist.prev pl).2.list.length ∧
    (∃ q pl', Playlist.random pl r = some (q, pl') ∧ pl'.pos < pl'.list.length) := by
  have hlen : 0 < pl.list.length := List.length_pos.mpr hne
  have hperm : (makePlaylist entries pos).list.Perm entries :=
    List.mergeSort_perm entries keyLe
  refine ⟨mergeSort_keyLe_sorted entries, hperm, ?_, ?_, ?_, ?_, ?_⟩
  · intro hp hne2
    have hlen2 : (makePlaylist entries pos).list.length = entries.length :=
      hperm.length_eq
    rcases hp with hp | ⟨p, hp, hplt⟩
    · subst hp
      simp [makePlaylist, Playlist.new, hlen2]
      exact List.length_pos.mpr hne2
    · subst hp
      simpa [makePlaylist, Playlist.new, hlen2] using hplt
  · unfold Playlist.play Playlist.len
    split
    · exact hv
    · simp; omega
  · unfold Playlist.next Playlist.len
    dsimp only
    split
    · simpa using hlen
    · rename_i hne3
      omega
  · unfold Playlist.prev Playlist.len
    dsimp only
    split
    · omega
    · omega
  · refine ⟨(⟨pl.list, r % pl.len⟩ : Playlist).list.get? (r % pl.len),
      ⟨pl.list, r % pl.len⟩, ?_, ?_⟩
    · unfold Playlist.random Playlist.genRange Playlist.len
      simp [hlen]
    · simpa using Nat.mod_lt r (by simpa [Playlist.len] using hlen)

/-- C5 witness: sorting and cursor preservation at concrete values: a
two-entry list (times 5 and 0) sorts ascending to times 0, 5; `next` on a
valid one-entry playlist keeps the cursor valid. -/
theorem C5_sorted_and_preserved_witness :
    List.Pairwise (fun a b : Request => a.time ≤ b.time)
      (makePlaylist [exReq5, exReq] (some 1)).list ∧
    (Playlist.next ⟨[exReq], 0⟩).2.pos < (Playlist.next ⟨[exReq], 0⟩).2.list.length := by
  have h := C5_sorted_and_preserved [exReq5, exReq] (some 1) ⟨[exReq], 0⟩ 0 0
    (by decide) (by decide)
  exact ⟨h.1, h.2.2.2.2.1⟩

/-- C10: on the empty playlist `current`, `next` and `prev` return nothing,
while `random` panics (an empty `gen_range` range, modelled as `none`); on
any nonempty playlist `random` sets the cursor to an index in `[0, len)`
and returns the (present) entry at that index. -/
theorem C10_empty_and_random (pos r : Nat) (pl : Playlist) (hne : pl.list ≠ []) :
    Playlist.current ⟨[], pos⟩ = none ∧
    (Playlist.next ⟨[], pos⟩).1 = none ∧
    (Playlist.prev ⟨[], pos⟩).1 = none ∧
    Playlist.random ⟨[], pos⟩ r = none ∧
    (∃ p, p < pl.list.length ∧
      Playlist.random pl r = some (pl.list.get? p, ⟨pl.list, p⟩) ∧
      (pl.list.get? p).isSome = true) := by
  have hlen : 0 < pl.list.length := List.length_pos.mpr hne
  refine ⟨rfl, by simp [Playlist.next, Playlist.len], by simp [Playlist.prev, Playlist.len],
    by simp [Playlist.random, Playlist.genRange, Playlist.len], ?_⟩
  refine ⟨r % pl.list.length, Nat.mod_lt r hlen, ?_, ?_⟩
  · unfold Playlist.random Playlist.genRange Playlist.len
    simp [hlen]
  · exact get?_isSome_of_lt _ _ (Nat.mod_lt r hlen)

/-- C10 witness: the empty-playlist behaviours and a concrete nonempty
random draw (seed 7 on a two-entry playlist lands on index 1). -/
theorem C10_empty_and_random_witness :
    Playlist.random ⟨[], 2⟩ 7 = none ∧
    Playlist.random ⟨[exReq, exReq5], 0⟩ 7 = some (some exReq5, ⟨[exReq, exReq5], 1⟩) := by
  have h := C10_empty_and_random 2 7 ⟨[exReq, exReq5], 0⟩ (by decide)
  exact ⟨h.2.2.2.1, by decide⟩

/-- C7 (evaluation at the failing input): the decoder maps each named event
other than `end-file` to its variant — except `"tracks-changed"`, which the
source (at `mpv.rs` line 165) matches with a spurious trailing space, so the
real event name decodes to nothing while the impossible name
`"tracks-changed "` decodes to `TracksChanged`; unrecognized names yield
nothing. -/
theorem C7_named_events :
    Event.tryFromValue (.obj [("event", .str "tracks-changed")]) = none ∧
    Event.tryFromValue (.obj [("event", .str "tracks-changed ")]) = some .tracksChanged ∧
    Event.tryFromValue (.obj [("event", .str "start-file")]) = some .startFile ∧
    Event.tryFromValue (.obj [("event", .str "file-loaded")]) = some .fileLoaded ∧
    Event.tryFromValue (.obj [("event", .str "idle")]) = some .idle ∧
    Event.tryFromValue (.obj [("event", .str "shutdown")]) = some .shutdown ∧
    Event.tryFromValue (.obj [("event", .str "track-switched")]) = some .trackSwitched ∧
    Event.tryFromValue (.obj [("event", .str "pause")]) = some .pause ∧
    Event.tryFromValue (.obj [("event", .str "unpause")]) = some .unpause ∧
    Event.tryFromValue (.obj [("event", .str "metadata-update")]) = some .metadataUpdate ∧
    Event.tryFromValue (.obj [("event", .str "bogus-event")]) = none := by
  decide

theorem readLoopAux_eof_events :
    ∀ (stream : List JValue) (buf : List (Nat × JValue)) (evs : List Event)
      (x : ReadResult) (buf' : List (Nat × JValue)) (evs' : List Event)
      (rest' : List JValue),
    (∀ u ∈ stream, Event.tryFromValue u = some (.endFileReason .eof)) →
    readLoopAux none buf evs stream = some (x, buf', evs', rest') →
    (∀ e ∈ evs', e ∈ evs ∨ e = .endFileReason .eof) ∧
    (∀ u ∈ rest', Event.tryFromValue u = some (.endFileReason .eof)) := by
  intro stream
  induction stream with
  | nil =>
    intro buf evs x buf' evs' rest' hall h
    simp [readLoopAux] at h
  | cons v rest ih =>
    intro buf evs x buf' evs' rest' hall h
    have hv := hall v (List.mem_cons_self _ _)
    have hrest : ∀ u ∈ rest, Event.tryFromValue u = some (.endFileReason .eof) :=
      fun u hu => hall u (List.mem_cons_of_mem _ hu)
    rw [readLoopAux] at h
    cases hreq : reqIdOf v with
    | some req =>
      simp only [hreq] at h
      rw [if_neg (by simp)] at h
      exact ih _ _ _ _ _ _ hrest h
    | none =>
      simp only [hreq, hv] at h
      rw [if_pos trivial] at h
      cases h
      refine ⟨?_, hrest⟩
      intro e he
      unfold insertEvent at he
      split at he
      · exact Or.inl he
      · rw [List.mem_append] at he
        rcases he with he | he
        · exact Or.inl he
        · simp at he
          exact Or.inr he

theorem readLoop_decomp {id : Option Nat} {st : MpvState} {x : ReadResult}
    {st' : MpvState} (h : readLoop id st = some (x, st')) :
    readLoopAux id st.buf st.events st.stream = some (x, st'.buf, st'.events, st'.stream) := by
  unfold readLoop at h
  cases haux : readLoopAux id st.buf st.events st.stream with
  | none => rw [haux] at h; simp at h
  | some r =>
    rw [haux] at h
    obtain ⟨y, buf', evs', rest'⟩ := r
    simp at h
    obtain ⟨h1, h2⟩ := h
    subst h1
    subst h2
    rfl

theorem waitLoop_eof_not_satisfied (st : MpvState) :
    Event.endFile ∉ st.events →
    (∀ u ∈ st.stream, Event.tryFromValue u = some (.endFileReason .eof)) →
    waitLoop .endFile st = none := by
  induction st using waitLoop.induct .endFile with
  | case1 st hmem =>
    intro hnot _
    exact absurd hmem hnot
  | case2 st hmem hr =>
    intro _ _
    rw [waitLoop, if_neg hmem]
    split
    · rfl
    · rename_i fst st' heq
      rw [hr] at heq
      cases heq
  | case3 st hmem fst st' hr ih =>
    intro hnot hall
    have haux : readLoopAux none st.buf st.events st.stream =
        some (fst, st'.buf, st'.events, st'.stream) := readLoop_decomp hr
    have hspec := readLoopAux_eof_events st.stream st.buf st.events fst
      st'.buf st'.events st'.stream hall haux
    rw [waitLoop, if_neg hmem]
    split
    · rfl
    · rename_i fst2 st2 heq
      rw [hr] at heq
      injection heq with heq2
      injection heq2 with ha hb
      subst hb
      refine ih ?_ hspec.2
      intro hmem2
      rcases hspec.1 _ hmem2 with hin | habs
      · exact hnot hin
      · cases habs

theorem tryFromValue_endFile_inv (w : JValue)
    (hw : Event.tryFromValue w = some .endFile) :
    (w.get "event").bind JValue.asStr = some "end-file" ∧
    ∃ s, (w.get "reason").bind JValue.asStr = some s ∧ recognizedReason s = none := by
  unfold Event.tryFromValue at hw
  cases hname : (w.get "event").bind JValue.asStr with
  | none => simp [hname] at hw
  | some name =>
    simp only [hname] at hw
    unfold Event.ofName at hw
    by_cases hef : name = "end-file"
    · subst hef
      rw [if_neg (by decide), if_pos rfl] at hw
      refine ⟨rfl, ?_⟩
      cases hreason : (w.get "reason").bind JValue.asStr with
      | none => simp [hreason] at hw
      | some s =>
        simp only [hreason] at hw
        cases hrec2 : recognizedReason s with
        | none => exact ⟨s, rfl, hrec2⟩
        | some r2 => simp [hrec2] at hw
    · exfalso
      split_ifs at hw <;> simp_all

/-- C1: the end-file decoder produces `EndFileReason r` (never the bare
`EndFile`) for every recognized reason string; the bare `EndFile` variant
arises only from an end-file message whose `reason` string is present but
unrecognized; consequently `Control::wait_for_end`, which waits for the
bare `EndFile` event, is never satisfied by a stream of ordinary playback
completions carrying reason `"eof"`. -/
theorem C1_end_file_decoding (v w : JValue) (r : String) (rr : Reason)
    (st : MpvState)
    (hev : v.get "event" = some (.str "end-file"))
    (hr : (v.get "reason").bind JValue.asStr = some r)
    (hrec : recognizedReason r = some rr)
    (hstream : ∀ u ∈ st.stream, Event.tryFromValue u = some (.endFileReason .eof)) :
    Event.tryFromValue v = some (.endFileReason rr) ∧
    Event.tryFromValue v ≠ some .endFile ∧
    (Event.tryFromValue w = some .endFile →
      (w.get "event").bind JValue.asStr = some "end-file" ∧
      ∃ s, (w.get "reason").bind JValue.asStr = some s ∧ recognizedReason s = none) ∧
    waitForEnd st = none := by
  have hdec : Event.tryFromValue v = some (.endFileReason rr) := by
    unfold Event.tryFromValue
    rw [hev]
    show Event.ofName v "end-file" = _
    unfold Event.ofName
    rw [if_neg (by decide), if_pos rfl, hr]
    simp only [hrec]
  refine ⟨hdec, ?_, ?_, ?_⟩
  · rw [hdec]
    simp
  · exact tryFromValue_endFile_inv w
  · unfold waitForEnd waitForEvent
    exact waitLoop_eof_not_satisfied _ (by simp) hstream

/-- C1 witness: a concrete `end-file`/`eof` message decodes to
`EndFileReason Eof`, and `wait_for_end` reading a stream holding exactly
that message is never satisfied. -/
theorem C1_end_file_decoding_witness :
    Event.tryFromValue (.obj [("event", .str "end-file"), ("reason", .str "eof")]) =
      some (.endFileReason .eof) ∧
    waitForEnd ⟨[], [], [.obj [("event", .str "end-file"), ("reason", .str "eof")]]⟩ =
      none := by
  have h := C1_end_file_decoding
    (.obj [("event", .str "end-file"), ("reason", .str "eof")])
    (.obj [("event", .str "end-file"), ("reason", .str "weird")])
    "eof" .eof
    ⟨[], [], [.obj [("event", .str "end-file"), ("reason", .str "eof")]]⟩
    (by rfl) (by rfl) (by rfl)
    (by intro u hu; simp at hu; subst hu; rfl)
  exact ⟨h.1, h.2.2.2⟩

/-- C6: two requests with distinct correlation ids whose responses arrive
out of order on the stream: waiting for `a` first reads `b`'s response,
stashes it in the response buffer under `b`, and returns the response
carrying `a`; the later wait for `b` consumes the stashed response without
reading the stream. -/
theorem C6_response_correlation (a b : Nat) (u v : JValue) (rest : List JValue)
    (evs : List Event) (hab : a ≠ b)
    (hu : reqIdOf u = some b) (hv : reqIdOf v = some a) :
    waitForResponse (some a) ⟨[], evs, u :: v :: rest⟩ =
      some (.resp v, ⟨[(b, u)], evs, rest⟩) ∧
    waitForResponse (some b) ⟨[(b, u)], evs, rest⟩ =
      some (.resp u, ⟨[], evs, rest⟩) := by
  have hba : ¬ ((some a : Option Nat) = some b) := by simpa using hab
  constructor
  · simp [waitForResponse, bufRemove, readLoop, readLoopAux, hu, hv, hba, bufInsert]
  · simp [waitForResponse, bufRemove, readLoop, bufInsert]

/-- C6 witness: ids 7 and 9 with responses arriving in order 9 then 7. -/
theorem C6_response_correlation_witness :
    waitForResponse (some 7)
      ⟨[], [], [.obj [("request_id", .num 9)], .obj [("request_id", .num 7)]]⟩ =
      some (.resp (.obj [("request_id", .num 7)]),
        ⟨[(9, .obj [("request_id", .num 9)])], [], []⟩) ∧
    waitForResponse (some 9) ⟨[(9, .obj [("request_id", .num 9)])], [], []⟩ =
      some (.resp (.obj [("request_id", .num 9)]), ⟨[], [], []⟩) := by
  exact C6_response_correlation 7 9
    (.obj [("request_id", .num 9)]) (.obj [("request_id", .num 7)])
    [] [] (by decide) (by rfl) (by rfl)

/-- C2 counterexample: a `PRIVMSG` line without a prefix, and one with a
prefix but no target argument, both make `IrcMessage::parse` panic
(`prefix.unwrap()` / `args.remove(0)` on an empty vector) — it does not
return a parse failure, so parsing is not total on such lines. -/
theorem C2_counterexample :
    IrcMessage.parse ("PRIVMSG #chan :hi".toList) = .panics ∧
    IrcMessage.parse (":n!u@h PRIVMSG".toList) = .panics := by
  constructor <;> rfl

/-- C2 (amended): for every input line whose verb is `PRIVMSG` but which
lacks a leading colon prefix or lacks a positional argument after the verb,
`IrcMessage::parse` panics (it neither returns a message nor a clean parse
failure); the no-message result is reserved for the empty line. -/
theorem C2_privmsg_panics (input rest : Str) (tags : Tags)
    (hne : input ≠ [])
    (hst : stripTags input = some (rest, tags))
    (hverb : (argsOf rest).head? = some ("PRIVMSG".toList))
    (hmiss : parseSender rest = none ∨ (argsOf rest).tail = []) :
    IrcMessage.parse input = .panics := by
  unfold IrcMessage.parse
  rw [if_neg hne]
  simp only [hst]
  cases hargs : argsOf rest with
  | nil => rw [hargs] at hverb
  | cons verb rargs =>
    rw [hargs] at hverb
    simp at hverb
    subst hverb
    simp only [if_pos rfl]
    cases rargs with
    | nil => rfl
    | cons t ts =>
      rcases hmiss with hps | htail
      · simp [hps]
      · rw [hargs] at htail
        cases htail

/-- C2 witness: the concrete prefix-less line `"PRIVMSG #chan :hi"`
satisfies the hypotheses and panics. -/
theorem C2_privmsg_panics_witness :
    stripTags ("PRIVMSG #chan :hi".toList) = some ("PRIVMSG #chan :hi".toList, []) ∧
    IrcMessage.parse ("PRIVMSG #chan :hi".toList) = .panics :=
  ⟨by rfl, C2_privmsg_panics ("PRIVMSG #chan :hi".toList) ("PRIVMSG #chan :hi".toList) []
    (by decide) (by rfl) (by rfl) (Or.inl (by rfl))⟩

/-- C9 counterexample: a `!songinfo` private message carrying no tags at all
yields no command — `Command::parse` requires a `badges` tag and a
`user-id` tag before any alias is considered, contradicting "regardless of
which tags the message carries". -/
theorem C9_counterexample :
    BotCommand.parse ⟨[], .privmsg ("#chan".toList) ("nick".toList) ("!songinfo".toList)⟩ =
      none := by
  rfl

/-- C9 (amended): provided the message carries both a `badges` tag and a
`user-id` tag, the `!songinfo`/`!song`/`!current` aliases yield `Info` and
`!songlist`/`!list` yield `List` with no capability gate, while
`!play`/`!skip`/`!random` yield nothing for a sender without the
Broadcaster or Moderator badge; lacking either tag, no command is
recognized at all. -/
theorem C9_info_list_ungated (tags : Tags) (target snd data : Str)
    (bs : List Badge) (uid : Str) (first : Str) (rest : List Str)
    (hb : Tags.badges tags = some bs)
    (hu : Tags.get tags ("user-id".toList) = some uid)
    (hsplit : splitWs data = first :: rest) :
    ((first = "!songinfo".toList ∨ first = "!song".toList ∨ first = "!current".toList) →
      BotCommand.parse ⟨tags, .privmsg target snd data⟩ = some ⟨.info, .channel target⟩) ∧
    ((first = "!songlist".toList ∨ first = "!list".toList) →
      BotCommand.parse ⟨tags, .privmsg target snd data⟩ = some ⟨.list, .channel target⟩) ∧
    (bs.contains Badge.broadcaster = false → bs.contains Badge.moderator = false →
      (first = "!play".toList ∨ first = "!skip".toList ∨ first = "!random".toList) →
      BotCommand.parse ⟨tags, .privmsg target snd data⟩ = none) ∧
    (∀ tags2 : Tags,
      Tags.badges tags2 = none ∨ Tags.get tags2 ("user-id".toList) = none →
      BotCommand.parse ⟨tags2, .privmsg target snd data⟩ = none) := by
  refine ⟨?_, ?_, ?_, ?_⟩
  · intro halias
    unfold BotCommand.parse
    simp only [hb, hu, hsplit]
    rcases halias with h | h | h <;> subst h <;> simp
  · intro halias
    unfold BotCommand.parse
    simp only [hb, hu, hsplit]
    rcases halias with h | h <;> subst h <;> simp
  · intro hbc hmod halias
    unfold BotCommand.parse
    simp only [hb, hu, hsplit, hbc, hmod]
    rcases halias with h | h | h <;> subst h <;> simp
  · intro tags2 hnone
    unfold BotCommand.parse
    rcases hnone with h | h
    · simp only [h]
    · cases hb2 : Tags.badges tags2 with
      | none => simp only [hb2]
      | some bs2 => simp only [hb2, h]

/-- C9 witness: with `badges=subscriber/1` (present but not elevated) and a
`user-id` tag, `!songinfo` yields `Info` and `!skip` yields nothing. -/
theorem C9_info_list_ungated_witness :
    BotCommand.parse
      ⟨[("badges".toList, "subscriber/1".toList), ("user-id".toList, "42".toList)],
        .privmsg ("#chan".toList) ("nick".toList) ("!songinfo".toList)⟩ =
      some ⟨.info, .channel ("#chan".toList)⟩ ∧
    BotCommand.parse
      ⟨[("badges".toList, "subscriber/1".toList), ("user-id".toList, "42".toList)],
        .privmsg ("#chan".toList) ("nick".toList) ("!skip".toList)⟩ =
      none := by
  have h1 := C9_info_list_ungated
    [("badges".toList, "subscriber/1".toList), ("user-id".toList, "42".toList)]
    ("#chan".toList) ("nick".toList) ("!songinfo".toList)
    [Badge.subscriber] ("42".toList) ("!songinfo".toList) []
    (by rfl) (by rfl) (by rfl)
  have h2 := C9_info_list_ungated
    [("badges".toList, "subscriber/1".toList), ("user-id".toList, "42".toList)]
    ("#chan".toList) ("nick".toList) ("!skip".toList)
    [Badge.subscriber] ("42".toList) ("!skip".toList) []
    (by rfl) (by rfl) (by rfl)
  exact ⟨h1.1 (Or.inl rfl), h2.2.2.1 (by rfl) (by rfl) (Or.inr (Or.inl rfl))⟩

/-- The 605-byte outbound line `"HEAD:" ++ 600 × 'a'`. -/
def exLongLine : Bytes :=
  [72, 69, 65, 68, 58] ++ List.replicate 600 97

/-- A 712-byte outbound line `"A:" ++ payload` whose payload places a
two-byte UTF-8 character (`0xC3 0xA9`, `'é'`) across the 509-byte chunk
boundary. -/
def exBoundaryLine : Bytes :=
  [65, 58] ++ List.replicate 508 97 ++ [195, 169] ++ List.replicate 200 97

/-- C3 counterexample: on `exBoundaryLine` both chunks straddle the UTF-8
character, `str::from_utf8` fails on each, and `split` emits no lines at
all, so the concatenation of emitted chunk payloads (empty) differs from
the original nonempty payload byte-for-byte. -/
theorem C3_counterexample :
    510 < exBoundaryLine.length ∧
    colonByte ∈ exBoundaryLine ∧
    splitLine exBoundaryLine = some [] ∧
    trimBytes ((exBoundaryLine.dropWhile (fun b => !(b = colonByte : Bool))).drop 1) =
      List.replicate 508 97 ++ [195, 169] ++ List.replicate 200 97 ∧
    (List.replicate 508 97 ++ [195, 169] ++ List.replicate 200 97 : Bytes) ≠ [] := by
  refine ⟨by decide, by decide, by rfl, by rfl, by decide⟩

/-- C3 (amended): a long line containing a payload marker is split at the
first `':'`; both sides are whitespace-trimmed; the trimmed payload is cut
into chunks of at most `510 - H` bytes (`H` the trimmed head's length,
`H < 510`); each chunk that is valid UTF-8 is re-emitted as
`head ++ " :" ++ chunk ++ "\r\n"` while invalid chunks are dropped; when
every chunk is valid UTF-8 (in particular for any ASCII payload) all of
them are re-emitted and their concatenation equals the trimmed payload
byte-for-byte. -/
theorem C3_split_framing (data head tail : Bytes) (k : Nat)
    (hlen : 510 < data.length) (hcolon : colonByte ∈ data)
    (hhead : head = trimBytes (data.takeWhile (fun b => !(b = colonByte : Bool))))
    (htail : tail = trimBytes ((data.dropWhile (fun b => !(b = colonByte : Bool))).drop 1))
    (hk : k = 510 - head.length)
    (hH : head.length < 510) :
    splitLine data =
      some (((chunksB k tail).filter utf8Valid).map
        (fun c => head ++ [32, colonByte] ++ c ++ [13, 10])) ∧
    (∀ c ∈ chunksB k tail, c.length ≤ k) ∧
    ((chunksB k tail).all utf8Valid = true →
      (chunksB k tail).filter utf8Valid = chunksB k tail ∧
      (chunksB k tail).flatten = tail) := by
  subst hhead htail hk
  refine ⟨?_, ?_, ?_⟩
  · unfold splitLine
    rw [if_pos ⟨hlen, hcolon⟩]
    rw [if_neg (by omega)]
  · intro c hc
    exact chunksB_mem_length _ _ _ hc
  · intro hall
    rw [List.all_eq_true] at hall
    refine ⟨List.filter_eq_self.mpr hall, ?_⟩
    exact chunksB_join _ (by omega) _

/-- C3 witness: the 605-byte ASCII line `exLongLine` (head `"HEAD"`,
payload 600 × `'a'`) splits into chunks whose concatenation is the whole
payload. -/
theorem C3_split_framing_witness :
    splitLine exLongLine =
      some (((chunksB 506 (List.replicate 600 97)).filter utf8Valid).map
        (fun c => [72, 69, 65, 68] ++ [32, colonByte] ++ c ++ [13, 10])) ∧
    (chunksB 506 (List.replicate 600 97)).flatten = List.replicate 600 97 := by
  have h := C3_split_framing exLongLine [72, 69, 65, 68] (List.replicate 600 97) 506
    (by decide) (by decide) (by rfl) (by rfl) (by rfl) (by decide)
  exact ⟨h.1, (h.2.2 (by rfl)).2⟩

/-- C4 counterexample: on `exLongLine` the first physical line emitted is
514 bytes including the `"\r\n"` terminator, i.e. 512 bytes before it —
exceeding the claimed 510-byte cap (`head ++ " :" ++ chunk` with a chunk of
`510 - H` bytes is `H + 2 + (510 - H) = 512` bytes). -/
theorem C4_counterexample :
    ((splitLine exLongLine).getD []).head?.map List.length = some 514 ∧
    ¬ (514 - 2 ≤ 510) := by
  refine ⟨by rfl, by decide⟩

/-- C4 (amended): a line longer than 510 bytes containing a payload marker
is split, and each physical line emitted for it is at most 514 bytes
including the `"\r\n"` terminator (512 before it); a line not longer than
510 bytes or without a marker is emitted unmodified (plus terminator), with
no cap at all. -/
theorem C4_line_cap (data : Bytes) (lines : List Bytes) (l : Bytes)
    (hH : (trimBytes (data.takeWhile (fun b => !(b = colonByte : Bool)))).length < 510)
    (hsp : splitLine data = some lines) (hl : l ∈ lines) :
    (510 < data.length ∧ colonByte ∈ data → l.length ≤ 514) ∧
    (¬ (510 < data.length ∧ colonByte ∈ data) → lines = [data ++ [13, 10]]) := by
  by_cases hc : 510 < data.length ∧ colonByte ∈ data
  · refine ⟨?_, fun hnc => absurd hc hnc⟩
    intro _
    unfold splitLine at hsp
    rw [if_pos hc, if_neg (by omega)] at hsp
    injection hsp with hsp
    subst hsp
    rw [List.mem_map] at hl
    obtain ⟨c, hcmem, hcl⟩ := hl
    rw [List.mem_filter] at hcmem
    have hclen := chunksB_mem_length _ _ _ hcmem.1
    subst hcl
    simp [List.length_append]
    omega
  · refine ⟨fun hc2 => absurd hc2 hc, fun _ => ?_⟩
    unfold splitLine at hsp
    rw [if_neg hc] at hsp
    injection hsp with hsp
    exact hsp.symm

/-- C4 witness: the first emitted line of `exLongLine` is within the
514-byte bound (it is exactly 514 bytes with the terminator). -/
theorem C4_line_cap_witness :
    ([72, 69, 65, 68, 32, 58] ++ List.replicate 506 97 ++ [13, 10] : Bytes).length ≤ 514 := by
  have h := C4_line_cap exLongLine
    [[72, 69, 65, 68, 32, 58] ++ List.replicate 506 97 ++ [13, 10],
     [72, 69, 65, 68, 32, 58] ++ List.replicate 94 97 ++ [13, 10]]
    ([72, 69, 65, 68, 32, 58] ++ List.replicate 506 97 ++ [13, 10])
    (by decide) (by rfl) (by simp)
  exact h.1 (by decide)

end AMistake
